import Mathlib

/-!
Verification development for the Stream-Links-Harvester repository.

The Python sources (`browser_client.py`, `extractor.py`, `config.py`,
`utils.py`, `main.py`) are shallowly embedded below: pure helpers become
Lean functions, the rate limiter's timed behaviour is modelled by explicit
state passing over rational timestamps, and the browser-facing code is
modelled over explicit page/environment structures that record exactly the
data the Python code reads from the DOM and the network.
-/

namespace Harvester

/-! ## String primitives

Python's `pat in s` (substring test) and `s.startswith(pat)` modelled over
the character lists of the strings. -/

/-- Embeds Python `s.startswith(pat)`: the character list `pat` is an
initial segment of `hay`. -/
def startsWithL : List Char → List Char → Bool
  | _, [] => true
  | [], _ :: _ => false
  | c :: cs, p :: ps => c == p && startsWithL cs ps

/-- Embeds Python `pat in s`: `pat` occurs contiguously inside `hay`. -/
def hasSubL : List Char → List Char → Bool
  | [], pat => pat.isEmpty
  | c :: cs, pat => startsWithL (c :: cs) pat || hasSubL cs pat

/-- Python `hay.startswith(pat)` on `String`. -/
def strStarts (hay pat : String) : Bool :=
  startsWithL hay.data pat.data

/-- Python `pat in hay` on `String`. -/
def strHas (hay pat : String) : Bool :=
  hasSubL hay.data pat.data

/-! ## extractor.py : validity predicate -/

/-- The marker list of `_is_valid_download_url` (extractor.py line 255). -/
def valid_video_patterns : List String :=
  [".mp4", ".m3u8", ".mpd", "/media/", "/video/", "stream", "download"]

/-- Embeds `_is_valid_download_url` (extractor.py lines 237-259): empty
strings are falsy and rejected; the URL must start with `http://` or
`https://` and contain at least one marker. -/
def is_valid_download_url (url : String) : Bool :=
  if url.data.isEmpty then false
  else if !(strStarts url "http://" || strStarts url "https://") then false
  else if !(valid_video_patterns.any (fun p => strHas url p)) then false
  else true

/-- Host allow-list of `_is_iframe_video_source` (extractor.py 276-286). -/
def video_hosts : List String :=
  ["youtube.com/embed", "player.vimeo.com", "dailymotion.com/embed",
   "streamable.com/e", "jwplayer", "brightcove", "vidyard", "wistia", "videojs"]

/-- Embeds `_is_iframe_video_source` (extractor.py lines 262-288). -/
def is_iframe_video_source (url : String) : Bool :=
  if url.data.isEmpty then false
  else video_hosts.any (fun h => strHas url h)

/-! ## extractor.py : page model and the four strategies

The Playwright page handle is embedded as a structure holding exactly the
data the extraction code reads: the element (if any) each
`wait_for_selector` call would yield, the `video` elements with their
`src`/nested `source` attributes, and the `iframe` `src` attributes.
Clicking a button-like element reveals that element's popup view, which is
what `_check_for_popup_link` then queries. -/

/-- An element revealed in a popup/modal after a click; only its
attributes are read. -/
structure PElem where
  attrs : List (String × String)
deriving DecidableEq

/-- A DOM element matched by a selector: its attributes, plus the
popup-view query results (`query_selector` per popup selector) observed
after clicking it. -/
structure Elem where
  attrs : List (String × String)
  popup : List (String × PElem)
deriving DecidableEq

/-- A `video` element: its own `src` attribute and the `src` attributes of
its nested `source` children. -/
structure VideoEl where
  src : Option String
  sources : List (Option String)
deriving DecidableEq

/-- The page handle as seen by the extractor: `wait_for_selector` results
keyed by selector (a missing key is a timeout), the `video` elements, and
the `iframe` `src` attributes. -/
structure PageView where
  selResult : List (String × Elem)
  videos : List VideoEl
  iframes : List (Option String)
deriving DecidableEq

/-- `element.get_attribute(name)` for a matched element. -/
def getAttr (e : Elem) (name : String) : Option String :=
  (e.attrs.find? (fun kv => kv.1 == name)).map Prod.snd

/-- `element.get_attribute(name)` for a popup element. -/
def getAttrP (e : PElem) (name : String) : Option String :=
  (e.attrs.find? (fun kv => kv.1 == name)).map Prod.snd

/-- Selector lookup on the page (`wait_for_selector` /
`query_selector`): `none` models a timeout or no match. -/
def lookupSel (view : List (String × Elem)) (sel : String) : Option Elem :=
  (view.find? (fun kv => kv.1 == sel)).map Prod.snd

/-- Popup-selector lookup (`query_selector` after a click). -/
def lookupSelP (view : List (String × PElem)) (sel : String) : Option PElem :=
  (view.find? (fun kv => kv.1 == sel)).map Prod.snd

/-- The selector priority list of `_try_find_download_link`
(extractor.py lines 68-79). -/
def selectors : List String :=
  ["a.download-button", "a[data-download]", "a.video-download",
   "a[href*=\x27download\x27]", "a[href*=\x27.mp4\x27]",
   "a[href*=\x27.m3u8\x27]", "a[href*=\x27.mpd\x27]",
   "button.download-button", "[data-download-url]", "[data-video-url]"]

/-- The popup selector list of `_check_for_popup_link`
(extractor.py lines 217-222). -/
def popup_selectors : List String :=
  ["a.download-link", "a[download]", ".modal a[href*=\x27.mp4\x27]",
   ".popup a[href*=\x27download\x27]"]

/-- One attribute probe of `_try_find_download_link`: Python
`val = element.get_attribute(name); if val and _is_valid_download_url(val)`
(truthiness rejects the empty string). -/
def checkAttr (e : Elem) (name : String) : Option String :=
  match getAttr e name with
  | none => none
  | some v => if !v.data.isEmpty && is_valid_download_url v then some v else none

/-- Embeds `_check_for_popup_link` (extractor.py lines 206-234) over the
popup view revealed by the click. -/
def popupScan (view : List (String × PElem)) : List String → Option String
  | [] => none
  | sel :: rest =>
    match lookupSelP view sel with
    | none => popupScan view rest
    | some e =>
      match getAttrP e "href" with
      | none => popupScan view rest
      | some href =>
        if !href.data.isEmpty && is_valid_download_url href then some href
        else popupScan view rest

/-- The selector loop of `_try_find_download_link` (extractor.py lines
82-123): per selector, try `href`, `data-download-url`, `data-video-url`;
for selectors containing `"button"`, click and re-scan the popup
selectors; a timeout (no element) moves on to the next selector. -/
def selScan (page : PageView) : List String → Option String
  | [] => none
  | sel :: rest =>
    match lookupSel page.selResult sel with
    | none => selScan page rest
    | some e =>
      match checkAttr e "href" with
      | some u => some u
      | none =>
        match checkAttr e "data-download-url" with
        | some u => some u
        | none =>
          match checkAttr e "data-video-url" with
          | some u => some u
          | none =>
            if strHas sel "button" then
              match popupScan e.popup popup_selectors with
              | some u => some u
              | none => selScan page rest
            else selScan page rest

/-- Embeds `_try_find_download_link` (extractor.py lines 54-125). -/
def try_find_download_link (page : PageView) : Option String :=
  selScan page selectors

/-- The pattern list of `_analyze_xhr_responses` (extractor.py line 141). -/
def xhr_video_patterns : List String :=
  [".mp4", ".m3u8", ".mpd", "/media/", "/video/", "stream"]

/-- The value loop of `_analyze_xhr_responses`: first URL matching a
pattern and passing the validity predicate; a pattern match that fails
validity moves on to the next value. -/
def xhrScan : List String → Option String
  | [] => none
  | url :: rest =>
    if xhr_video_patterns.any (fun p => strHas url p) then
      if is_valid_download_url url then some url else xhrScan rest
    else xhrScan rest

/-- Embeds `_analyze_xhr_responses` (extractor.py lines 128-149); the
Python dict is embedded as an insertion-ordered association list and the
loop walks its values. -/
def analyze_xhr_responses (xhr : List (String × String)) : Option String :=
  xhrScan (xhr.map Prod.snd)

/-- The nested `source`-children loop of `_extract_from_video_source`. -/
def sourcesScan : List (Option String) → Option String
  | [] => none
  | src? :: rest =>
    match src? with
    | none => sourcesScan rest
    | some s =>
      if !s.data.isEmpty && is_valid_download_url s then some s else sourcesScan rest

/-- Embeds `_extract_from_video_source` (extractor.py lines 152-180):
each video's own `src` first, then its nested `source` children. -/
def extract_from_video_source : List VideoEl → Option String
  | [] => none
  | v :: rest =>
    match (match v.src with
           | some s => if !s.data.isEmpty && is_valid_download_url s then some s else none
           | none => none) with
    | some u => some u
    | none =>
      match sourcesScan v.sources with
      | some u => some u
      | none => extract_from_video_source rest

/-- Embeds `_extract_from_iframe` (extractor.py lines 183-203). -/
def extract_from_iframe : List (Option String) → Option String
  | [] => none
  | src? :: rest =>
    match src? with
    | none => extract_from_iframe rest
    | some s =>
      if !s.data.isEmpty && is_iframe_video_source s then some s
      else extract_from_iframe rest

/-- Python truthiness of an optional string result: `None` and the empty
string are falsy. -/
def truthy : Option String → Bool
  | none => false
  | some s => !s.data.isEmpty

/-- Embeds `extract_download_url` (extractor.py lines 12-51): the four
strategies run in a fixed order and the first truthy result is returned. -/
def extract_download_url (page : PageView) (xhr : List (String × String)) :
    Option String :=
  let r1 := try_find_download_link page
  if truthy r1 then r1 else
  let r2 := analyze_xhr_responses xhr
  if truthy r2 then r2 else
  let r3 := extract_from_video_source page.videos
  if truthy r3 then r3 else
  let r4 := extract_from_iframe page.iframes
  if truthy r4 then r4 else
  none

/-! ## browser_client.py : RateLimiter

Timestamps are rationals standing for the real-valued `time.time()` clock.
A call of `wait_for_request` is parametrised by `now` (the single
`current_time = time.time()` reading at the head of the critical section)
and by `ε ≥ 0`, the extra wall-clock time that elapses between the end of
the computed sleeps and the final `time.time()` reading that is recorded
(scheduling overhead; `asyncio.sleep` sleeps at least the requested
amount). The `asyncio.Lock` serialises calls, so a run is a sequence of
such steps. -/

/-- State of `RateLimiter` (browser_client.py lines 14-28). -/
structure RateLimiter where
  delay_between_requests : ℚ
  max_requests_per_minute : ℕ
  request_times : List ℚ
deriving DecidableEq

/-- Embeds `RateLimiter.wait_for_request` (browser_client.py lines
30-53). Returns the recorded completion timestamp together with the new
state, or `none` when the Python code raises (`min([])` on an empty
window with a cap of 0). The second sleep reuses the stale `current_time`
reading, exactly as the source does. -/
def wait_for_request (s : RateLimiter) (now ε : ℚ) : Option (ℚ × RateLimiter) :=
  let kept := s.request_times.filter (fun t => decide (now - 60 < t))
  let sleep1? : Option ℚ :=
    if s.max_requests_per_minute ≤ kept.length then
      kept.min?.map (fun oldest => max (60 - (now - oldest)) 0)
    else some 0
  match sleep1? with
  | none => none
  | some sleep1 =>
    let sleep2 : ℚ :=
      match kept.max? with
      | none => 0
      | some latest =>
        if now - latest < s.delay_between_requests then
          s.delay_between_requests - (now - latest)
        else 0
    let recorded := now + sleep1 + sleep2 + ε
    some (recorded, { s with request_times := kept ++ [recorded] })

/-- A rate-limiter run: the mutable state plus the full history of
recorded completion timestamps (the appended `time.time()` values), in
order. -/
structure RLRun where
  rl : RateLimiter
  completions : List ℚ
deriving DecidableEq

/-- Fresh limiter as built by `RateLimiter.__init__`. -/
def initRun (d : ℚ) (M : ℕ) : RLRun :=
  ⟨⟨d, M, []⟩, []⟩

/-- One completed `wait_for_request` call in a run. -/
def stepRun (r : RLRun) (now ε : ℚ) : Option RLRun :=
  match wait_for_request r.rl now ε with
  | none => none
  | some (rec, rl2) => some ⟨rl2, r.completions ++ [rec]⟩

/-- A sequence of completed `wait_for_request` calls, each given its
`(now, ε)` pair. -/
def runTrace : RLRun → List (ℚ × ℚ) → Option RLRun
  | r, [] => some r
  | r, (now, ε) :: rest =>
    match stepRun r now ε with
    | none => none
    | some r2 => runTrace r2 rest

/-- Wellformedness of a trace: every overhead is nonnegative, each call's
clock reading is at or after every timestamp already recorded (the clock
is monotone and the lock serialises calls), and every call completes. -/
def goodTrace : RLRun → List (ℚ × ℚ) → Bool
  | _, [] => true
  | r, (now, ε) :: rest =>
    decide (0 ≤ ε) && r.rl.request_times.all (fun t => decide (t ≤ now)) &&
    (match stepRun r now ε with
     | none => false
     | some r2 => goodTrace r2 rest)

/-- Number of recorded timestamps lying in the trailing 60-second window
ending at `w` (the window is `(w - 60, w]`, matching the strict
`t > now - 60` retention test of the source). -/
def countWindow (w : ℚ) (l : List ℚ) : ℕ :=
  l.countP (fun t => decide (w - 60 < t) && decide (t ≤ w))

/-! ## browser_client.py : network-response capture -/

/-- Resource kinds the listener reacts to (browser_client.py line 154). -/
def captured_resource_types : List String :=
  ["fetch", "xhr", "media"]

/-- Marker set of `_handle_response` (browser_client.py lines 159-161). -/
def handler_patterns : List String :=
  ["m3u8", "mpd", "video", "media", "stream", "mp4", "download"]

/-- Python dict assignment `d[k] = v` on an insertion-ordered association
list: overwrite in place if the key exists, else append. -/
def dictInsert (d : List (String × String)) (k v : String) :
    List (String × String) :=
  if d.any (fun kv => kv.1 == k) then
    d.map (fun kv => if kv.1 == k then (kv.1, v) else kv)
  else d ++ [(k, v)]

/-- Key membership in the captured-response dict. -/
def dictHasKey (d : List (String × String)) (k : String) : Bool :=
  d.any (fun kv => kv.1 == k)

/-- Embeds `BrowserClient._handle_response` (browser_client.py lines
147-166): for a matching resource kind whose URL contains one of the
markers, `self.xhr_responses[url] = url`. -/
def handle_response (d : List (String × String)) (rtype url : String) :
    List (String × String) :=
  if captured_resource_types.contains rtype then
    if handler_patterns.any (fun p => strHas url p) then
      dictInsert d url url
    else d
  else d

/-! ## browser_client.py : the shared captured-response dict under
concurrent fetches

`main.py` launches all `process_url` tasks at once with `asyncio.gather`
on a single `BrowserClient`, whose one `self.xhr_responses` dict every
`fetch_and_extract` clears and reads. The awaits inside a fetch
(`new_page`, `goto`, the settle sleep) are suspension points, so the
atomic actions of concurrent fetches interleave. The model below replays
such an interleaving over the shared dict: `clearResponses` is the
`self.xhr_responses.clear()` at the start of a fetch, `capture` is a
listener callback firing on behalf of that fetch, and `extractRead` is
the dict as handed to `extract_download_url`. -/

/-- Atomic actions of one fetch on the shared dict. -/
inductive FetchAct where
  | clearResponses : FetchAct
  | capture : String → String → FetchAct
  | extractRead : FetchAct
deriving DecidableEq

/-- Shared client state: the single `xhr_responses` dict plus, for each
of two concurrent fetches A and B, the snapshot its extraction saw. -/
structure SharedCapture where
  xhr_responses : List (String × String)
  seenA : Option (List (String × String))
  seenB : Option (List (String × String))
deriving DecidableEq

/-- Effect of one interleaved action; `isA` says which fetch acts. -/
def stepShared (st : SharedCapture) (isA : Bool) (a : FetchAct) :
    SharedCapture :=
  match a with
  | .clearResponses => { st with xhr_responses := [] }
  | .capture rt u => { st with xhr_responses := handle_response st.xhr_responses rt u }
  | .extractRead =>
    if isA then { st with seenA := some st.xhr_responses }
    else { st with seenB := some st.xhr_responses }

/-- Replay an interleaving of the two fetches' actions. -/
def runShared (st : SharedCapture) : List (Bool × FetchAct) → SharedCapture
  | [] => st
  | (w, a) :: rest => runShared (stepShared st w a) rest

/-- A real interleaving produced by `asyncio.gather` in `main.py`: fetch A
clears and captures its response, then fetch B (past the rate-limit gate
while A awaits navigation) clears and captures, then A's extraction runs. -/
def leakSchedule : List (Bool × FetchAct) :=
  [(true, .clearResponses),
   (true, .capture "xhr" "https://a.example.com/video/1.mp4"),
   (false, .clearResponses),
   (false, .capture "xhr" "https://b.example.com/video/2.mp4"),
   (true, .extractRead),
   (false, .extractRead)]

/-! ## browser_client.py : fetch_and_extract control flow -/

/-- Outcomes of the fallible steps of one `fetch_and_extract` call:
whether opening the page, registering the listener, and navigating
succeed, whether the extraction pipeline raises, and the pipeline's
result when it does not. -/
structure FetchEnv where
  newPageOk : Bool
  registerOk : Bool
  gotoOk : Bool
  extractOk : Bool
  extractVal : Option String
deriving DecidableEq

/-- Embeds the exception structure of `BrowserClient.fetch_and_extract`
(browser_client.py lines 99-145): `context.new_page()` runs before the
`try`, so its failure propagates (`Except.error`); the listener
registration, `goto`, settle sleep and extraction run inside the
`try`/`except`, whose handler returns `None`. -/
def fetch_and_extract (env : FetchEnv) : Except Unit (Option String) :=
  if !env.newPageOk then Except.error ()
  else if !env.registerOk then Except.ok none
  else if !env.gotoOk then Except.ok none
  else if !env.extractOk then Except.ok none
  else Except.ok env.extractVal

/-! ## browser_client.py : session initialisation -/

/-- Session state of `BrowserClient`: the browser and context handles
(`none` before initialisation) with allocation modelled by a counter of
fresh object identities, plus the number of browsers launched so far. -/
structure Session where
  browser : Option ℕ
  context : Option ℕ
  nextId : ℕ
  launches : ℕ
deriving DecidableEq

/-- Embeds `BrowserClient.initialize` (browser_client.py lines 82-91): it
unconditionally launches a browser and creates a new context, overwriting
both handles. -/
def initBrowser (s : Session) : Session :=
  { browser := some s.nextId
    context := some (s.nextId + 1)
    nextId := s.nextId + 2
    launches := s.launches + 1 }

/-- Embeds the guard in `fetch_and_extract` (browser_client.py lines
112-113): `if not self.browser or not self.context: await self.initialize()`. -/
def ensureInitialized (s : Session) : Session :=
  if s.browser.isNone || s.context.isNone then initBrowser s else s

/-- Fresh client as built by `BrowserClient.__init__`. -/
def freshSession : Session :=
  ⟨none, none, 0, 0⟩

/-! ## config.py -/

/-- A loosely-typed YAML value, as Python's `setattr` accepts anything. -/
inductive CVal where
  | i : Int → CVal
  | s : String → CVal
  | sl : List String → CVal
deriving DecidableEq

/-- The `Config` dataclass (config.py lines 12-42). -/
structure Config where
  delay_between_requests : CVal
  max_requests_per_minute : CVal
  timeout : CVal
  output_dir : CVal
  idm_path : CVal
  download_dir : CVal
  download_link_selector : CVal
  xhr_patterns : CVal
deriving DecidableEq

/-- Default `Config()` values, including the `__post_init__` pattern
list. -/
def defaultConfig : Config :=
  { delay_between_requests := .i 5
    max_requests_per_minute := .i 10
    timeout := .i 15
    output_dir := .s "./out"
    idm_path := .s "C:/Program Files (x86)/Internet Download Manager/IDMan.exe"
    download_dir := .s "C:/Downloads"
    download_link_selector := .s "a.download-button, a[data-download], a.video-download, a[href*=\x27download\x27]"
    xhr_patterns := .sl ["*.m3u8*", "*.mpd*", "*video*", "*media*", "*stream*"] }

/-- The attribute names `hasattr(config, key)` recognises. -/
def configKeys : List String :=
  ["delay_between_requests", "max_requests_per_minute", "timeout",
   "output_dir", "idm_path", "download_dir", "download_link_selector",
   "xhr_patterns"]

/-- `setattr(config, k, v)` for a recognised key. -/
def setConfigField (c : Config) (k : String) (v : CVal) : Config :=
  if k == "delay_between_requests" then { c with delay_between_requests := v }
  else if k == "max_requests_per_minute" then { c with max_requests_per_minute := v }
  else if k == "timeout" then { c with timeout := v }
  else if k == "output_dir" then { c with output_dir := v }
  else if k == "idm_path" then { c with idm_path := v }
  else if k == "download_dir" then { c with download_dir := v }
  else if k == "download_link_selector" then { c with download_link_selector := v }
  else if k == "xhr_patterns" then { c with xhr_patterns := v }
  else c

/-- Embeds `load_config` (config.py lines 45-70): a missing file raises
`FileNotFoundError`; otherwise the YAML mapping (an ordered association
list here) is folded onto the defaults, applying only keys that pass the
`hasattr` test and dropping all others. -/
def load_config (fileExists : Bool) (data : List (String × CVal)) :
    Except String Config :=
  if !fileExists then Except.error "Configuration file not found"
  else Except.ok (data.foldl
    (fun c kv => if configKeys.contains kv.1 then setConfigField c kv.1 kv.2 else c)
    defaultConfig)

/-! ## utils.py -/

/-- The loop of `deduplicate_links` with the `seen` set made explicit:
Python `if link and link not in seen` keeps a link only when it is
non-empty (truthy) and not yet seen. -/
def dedupGo (seen : List String) : List String → List String
  | [] => []
  | l :: rest =>
    if !l.data.isEmpty && !(seen.contains l) then l :: dedupGo (l :: seen) rest
    else dedupGo seen rest

/-- Embeds `deduplicate_links` (utils.py lines 13-31). -/
def deduplicate_links (links : List String) : List String :=
  dedupGo [] links

/-! ## Spec-side definitions (for refinement statements)

Each of the following is written from the specification's words, to be
compared against the embedding of the source above. -/

/-- Modelled from the spec: "Strategies run in this fixed order; the
first valid, non-empty result wins" — the ordered chain over the four
strategy results, returning the first truthy one. -/
def firstTruthy : List (Option String) → Option String
  | [] => none
  | r :: rest => if truthy r then r else firstTruthy rest

/-- Modelled from the spec: the pipeline as the fixed-order first-wins
chain of the four strategies. -/
def pipelineSpec (page : PageView) (xhr : List (String × String)) :
    Option String :=
  firstTruthy
    [try_find_download_link page, analyze_xhr_responses xhr,
     extract_from_video_source page.videos, extract_from_iframe page.iframes]

/-- Modelled from the spec: the validity predicate "requires scheme http
or https AND at least one marker" (spec section 4.3). -/
def validSpec (url : String) : Prop :=
  (strStarts url "http://" = true ∨ strStarts url "https://" = true) ∧
  ∃ m ∈ valid_video_patterns, strHas url m = true

/-- Modelled from the spec: deduplication keeping the first occurrence of
each value in order ("order preserved, first occurrence kept"), with the
already-kept values as the accumulator. -/
def firstOccAux (seen : List String) : List String → List String
  | [] => []
  | x :: rest =>
    if seen.contains x then firstOccAux seen rest
    else x :: firstOccAux (x :: seen) rest

/-- Modelled from the spec: the first-occurrence sublist of a list. -/
def firstOccurrences (l : List String) : List String :=
  firstOccAux [] l

/-! ## Rate-limiter invariant (proof device) -/

/-- Invariant carried through a rate-limiter run: the stored window is a
suffix of the completion history whose discarded entries are at least 60
seconds older than some stored entry; the history is nondecreasing; every
trailing 60-second window holds at most the configured cap; consecutive
completions are at least `min delay 60` apart; and the stored window is
empty only when nothing has completed. -/
def RLInv (r : RLRun) : Prop :=
  (∃ pre, r.completions = pre ++ r.rl.request_times ∧
    ∀ a ∈ pre, ∃ b ∈ r.rl.request_times, a + 60 ≤ b) ∧
  List.Pairwise (· ≤ ·) r.completions ∧
  (∀ w, countWindow w r.completions ≤ r.rl.max_requests_per_minute) ∧
  List.Chain' (fun a b => a + min r.rl.delay_between_requests 60 ≤ b) r.completions ∧
  (r.rl.request_times = [] → r.completions = [])

end Harvester

namespace Harvester

/-! # Theorems -/

/-! ## Generic helper lemmas -/

theorem startsWithL_nil_of_cons (c : Char) (cs : List Char) :
    startsWithL [] (c :: cs) = false := rfl

theorem strStarts_of_nil_data {u p : String} (hu : u.data = [])
    (hp : p.data ≠ []) : strStarts u p = false := by
  unfold strStarts
  rw [hu]
  cases hps : p.data with
  | nil => exact absurd hps hp
  | cons c cs => rfl

theorem countP_lt_length_of_exists {α : Type} {p : α → Bool} {l : List α}
    {a : α} (ha : a ∈ l) (hpa : p a = false) : l.countP p < l.length := by
  induction l with
  | nil => cases ha
  | cons x xs ih =>
    rw [List.countP_cons, List.length_cons]
    rcases List.mem_cons.1 ha with rfl | hmem
    · rw [hpa]
      simpa using Nat.lt_succ_of_le (List.countP_le_length _)
    · by_cases hx : p x = true
      · simpa [hx] using ih hmem
      · rw [Bool.not_eq_true] at hx
        simpa [hx] using Nat.lt_succ_of_lt (ih hmem)

theorem sorted_filter_split (c : ℚ) :
    ∀ (l : List ℚ), List.Pairwise (· ≤ ·) l →
      l = l.filter (fun t => !decide (c < t)) ++ l.filter (fun t => decide (c < t))
  | [], _ => rfl
  | x :: xs, hp => by
    obtain ⟨hx, hxs⟩ := List.pairwise_cons.1 hp
    by_cases hcx : c < x
    · have hall : ∀ t ∈ x :: xs, decide (c < t) = true := by
        intro t ht
        rcases List.mem_cons.1 ht with rfl | hmem
        · simpa using hcx
        · simpa using lt_of_lt_of_le hcx (hx t hmem)
      have h1 : (x :: xs).filter (fun t => !decide (c < t)) = [] := by
        rw [List.filter_eq_nil_iff]
        intro t ht
        simp [hall t ht]
      have h2 : (x :: xs).filter (fun t => decide (c < t)) = x :: xs :=
        List.filter_eq_self.2 hall
      rw [h1, h2, List.nil_append]
    · have h1 : (x :: xs).filter (fun t => !decide (c < t)) =
          x :: xs.filter (fun t => !decide (c < t)) := by
        simp [List.filter_cons, hcx]
      have h2 : (x :: xs).filter (fun t => decide (c < t)) =
          xs.filter (fun t => decide (c < t)) := by
        simp [List.filter_cons, hcx]
      rw [h1, h2, List.cons_append]
      exact congrArg (x :: ·) (sorted_filter_split c xs hxs)

theorem min?_spec {l : List ℚ} {a : ℚ} (h : l.min? = some a) :
    a ∈ l ∧ ∀ x ∈ l, a ≤ x :=
  ⟨List.min?_mem min_choice h,
   fun x hx => (List.le_min?_iff (fun _ _ _ => le_min_iff) h).1 le_rfl x hx⟩

theorem max?_spec {l : List ℚ} {a : ℚ} (h : l.max? = some a) :
    a ∈ l ∧ ∀ x ∈ l, x ≤ a :=
  ⟨List.max?_mem max_choice h,
   fun x hx => (List.max?_le_iff (fun _ _ _ => max_le_iff) h).1 le_rfl x hx⟩

theorem pairwise_le_getLast? :
    ∀ {l : List ℚ} {x : ℚ}, List.Pairwise (· ≤ ·) l → l.getLast? = some x →
      x ∈ l ∧ ∀ t ∈ l, t ≤ x
  | [], _, _, hx => by cases hx
  | [a], x, _, hx => by
    have hax : a = x := by simpa using hx
    subst hax
    exact ⟨List.mem_singleton_self a, by simp⟩
  | a :: b :: l, x, hp, hx => by
    obtain ⟨ha, hbl⟩ := List.pairwise_cons.1 hp
    rw [List.getLast?_cons_cons] at hx
    obtain ⟨hmem, hbound⟩ := pairwise_le_getLast? hbl hx
    refine ⟨List.mem_cons_of_mem a hmem, ?_⟩
    intro t ht
    rcases List.mem_cons.1 ht with rfl | hmem'
    · exact ha x hmem
    · exact hbound t hmem'

/-! ## Claim C6 : the validity predicate -/

theorem is_valid_eq_and (u : String) :
    is_valid_download_url u =
      (!u.data.isEmpty && (strStarts u "http://" || strStarts u "https://") &&
       valid_video_patterns.any (fun p => strHas u p)) := by
  unfold is_valid_download_url
  cases h1 : u.data.isEmpty <;>
    cases h2 : (strStarts u "http://" || strStarts u "https://") <;>
      cases h3 : valid_video_patterns.any (fun p => strHas u p) <;>
        simp [h1, h2, h3]

/-- Claim C6: `_is_valid_download_url` accepts a candidate string exactly
when it starts with `http://` or `https://` and contains at least one
marker from the fixed marker set; in particular it accepts
`"https://cdn.example.com/video/abc.mp4"`. -/
theorem validity_predicate_characterization :
    (∀ u : String, is_valid_download_url u = true ↔ validSpec u) ∧
    is_valid_download_url "https://cdn.example.com/video/abc.mp4" = true := by
  constructor
  · intro u
    rw [is_valid_eq_and]
    unfold validSpec
    simp only [Bool.and_eq_true, Bool.or_eq_true, List.any_eq_true]
    constructor
    · rintro ⟨⟨_, hscheme⟩, hmark⟩
      exact ⟨hscheme, hmark⟩
    · rintro ⟨hscheme, hmark⟩
      refine ⟨⟨?_, hscheme⟩, hmark⟩
      cases hu : u.data.isEmpty
      · rfl
      · exfalso
        have hdata : u.data = [] := by simpa using hu
        have hp : ∀ p : String, p.data ≠ [] → strStarts u p = false := fun p hp =>
          strStarts_of_nil_data hdata hp
        rcases hscheme with h | h
        · rw [hp "http://" (by decide)] at h
          exact Bool.false_ne_true h
        · rw [hp "https://" (by decide)] at h
          exact Bool.false_ne_true h
  · rfl

/-- Witness for C6: the characterization applied to the accepted
example URL. -/
theorem validity_predicate_witness :
    validSpec "https://cdn.example.com/video/abc.mp4" :=
  (validity_predicate_characterization.1 "https://cdn.example.com/video/abc.mp4").1
    validity_predicate_characterization.2

/-! ## Claim C9 : deduplication -/

theorem dedupGo_eq_firstOccAux :
    ∀ (l : List String) (seen : List String),
      dedupGo seen l = firstOccAux seen (l.filter (fun s => !s.data.isEmpty))
  | [], _ => rfl
  | x :: xs, seen => by
    cases hx : x.data.isEmpty
    · cases hc : seen.contains x
      · simp only [dedupGo, firstOccAux, List.filter_cons, hx, hc]
        simp [dedupGo_eq_firstOccAux xs (x :: seen), firstOccAux, hc]
      · simp only [dedupGo, firstOccAux, List.filter_cons, hx, hc]
        simp [dedupGo_eq_firstOccAux xs seen, firstOccAux, hc]
    · simp only [dedupGo, List.filter_cons, hx]
      simp [dedupGo_eq_firstOccAux xs seen]

/-- Counterexample for C9 as frozen: on input `[""]` the code returns
`[]`, not the first-occurrence sublist `[""]` — the empty string is
dropped entirely rather than kept once at its first position. -/
theorem dedup_drops_empty_string :
    deduplicate_links [""] = [] ∧ firstOccurrences [""] = [""] :=
  ⟨rfl, rfl⟩

/-- Claim C9 (amended): `deduplicate_links` returns the first-occurrence
sublist of the non-empty entries, in original order; empty strings are
dropped. In particular `["a","b","a","c"]` yields `["a","b","c"]`. -/
theorem dedup_first_occurrences :
    (∀ links : List String,
      deduplicate_links links =
        firstOccurrences (links.filter (fun s => !s.data.isEmpty))) ∧
    deduplicate_links ["a", "b", "a", "c"] = ["a", "b", "c"] :=
  ⟨fun links => dedupGo_eq_firstOccAux links [], rfl⟩

/-- Witness for C9: the amended equation at the spec's example input. -/
theorem dedup_first_occurrences_witness :
    deduplicate_links ["a", "b", "a", "c"] =
      firstOccurrences (["a", "b", "a", "c"].filter (fun s => !s.data.isEmpty)) :=
  dedup_first_occurrences.1 ["a", "b", "a", "c"]

/-! ## Claim C7 : unknown configuration keys -/

/-- Counterexample for C7 as frozen: a configuration mapping holding the
unrecognized key `unknown_key` loads successfully (no validation error)
and the key is silently dropped — the result is exactly the defaults. -/
theorem load_config_accepts_unknown_key :
    load_config true [("unknown_key", CVal.i 1)] = Except.ok defaultConfig :=
  rfl

/-- Claim C7 (amended): `load_config` never fails on unrecognized keys;
a key outside the recognized attribute set is silently ignored, leaving
the loaded configuration unchanged. -/
theorem load_config_ignores_unknown_keys (fe : Bool)
    (data : List (String × CVal)) (k : String) (v : CVal)
    (hk : configKeys.contains k = false) :
    load_config fe (data ++ [(k, v)]) = load_config fe data := by
  unfold load_config
  cases fe
  · rfl
  · have hk' : k ∉ configKeys := by simpa using hk
    simp [List.foldl_append, hk']

/-- Witness for C7: appending an unknown key to a mapping does not change
the loaded configuration. -/
theorem load_config_ignores_unknown_keys_witness :
    load_config true ([("timeout", CVal.i 30)] ++ [("unknown_key", CVal.i 1)]) =
      load_config true [("timeout", CVal.i 30)] :=
  load_config_ignores_unknown_keys true [("timeout", CVal.i 30)] "unknown_key"
    (CVal.i 1) rfl

/-! ## Claim C8 : initialisation -/

/-- Counterexample for C8 as frozen: calling `initialize` twice launches
two browsers and yields a state different from the one after a single
call — `initialize` itself is not idempotent. -/
theorem initialize_twice_launches_two :
    (initBrowser (initBrowser freshSession)).launches = 2 ∧
    (initBrowser freshSession).launches = 1 ∧
    initBrowser (initBrowser freshSession) ≠ initBrowser freshSession := by
  refine ⟨rfl, rfl, ?_⟩
  decide

/-- Claim C8 (amended): `initialize` unconditionally launches a fresh
browser and context, so a second direct call creates an additional
browser; idempotence holds for the guarded call site in
`fetch_and_extract` (initialise only when the browser or context is
unset), which leaves an already-initialised session unchanged. -/
theorem ensure_initialized_idempotent (s : Session) :
    ensureInitialized (ensureInitialized s) = ensureInitialized s ∧
    (initBrowser s).launches = s.launches + 1 := by
  constructor
  · unfold ensureInitialized
    cases hb : s.browser <;> cases hc : s.context <;>
      simp [hb, hc, initBrowser]
  · rfl

/-- Witness for C8: the guarded initialisation applied to a fresh
session. -/
theorem ensure_initialized_idempotent_witness :
    ensureInitialized (ensureInitialized freshSession) =
      ensureInitialized freshSession :=
  (ensure_initialized_idempotent freshSession).1

/-! ## Claim C4 : exception scope of fetch_and_extract -/

/-- Counterexample for C4 as frozen: a failure while opening the new page
(`context.new_page()`, which runs before the `try`) escapes
`fetch_and_extract` as an exception rather than a `None` result. -/
theorem page_open_failure_propagates :
    fetch_and_extract ⟨false, true, true, true, none⟩ = Except.error () :=
  rfl

/-- Claim C4 (amended): once the new page has been opened, every failure
in listener registration, navigation, or extraction is caught inside
`fetch_and_extract` and converted into a `None` result; only a failure of
the page-open step itself propagates to the caller. -/
theorem fetch_failures_absorbed_after_page_open (env : FetchEnv)
    (h : env.newPageOk = true) :
    ∃ r, fetch_and_extract env = Except.ok r ∧
      ((env.registerOk = false ∨ env.gotoOk = false ∨ env.extractOk = false) →
        r = none) := by
  obtain ⟨np, rg, gt, ex, vl⟩ := env
  simp only at h
  subst h
  cases rg
  · exact ⟨none, rfl, fun _ => rfl⟩
  · cases gt
    · exact ⟨none, rfl, fun _ => rfl⟩
    · cases ex
      · exact ⟨none, rfl, fun _ => rfl⟩
      · refine ⟨vl, rfl, ?_⟩
        rintro (hc | hc | hc) <;> cases hc

/-- Witness for C4: a navigation failure after a successful page open
yields an `Except.ok` result (no exception). -/
theorem fetch_failures_absorbed_witness :
    ∃ r, fetch_and_extract ⟨true, true, false, true, some "u"⟩ = Except.ok r ∧
      (((⟨true, true, false, true, some "u"⟩ : FetchEnv).registerOk = false ∨
        (⟨true, true, false, true, some "u"⟩ : FetchEnv).gotoOk = false ∨
        (⟨true, true, false, true, some "u"⟩ : FetchEnv).extractOk = false) →
        r = none) :=
  fetch_failures_absorbed_after_page_open ⟨true, true, false, true, some "u"⟩ rfl

/-! ## Claim C1 : the captured-response set under concurrent fetches -/

/-- Claim C1 is violated by the code: replaying a real `asyncio.gather`
interleaving of two fetches on the one shared `xhr_responses` dict, fetch
A's extraction sees the URL captured on behalf of fetch B (leaked in) and
does not see the URL captured on behalf of A itself (wiped by B's
`clear()`), contradicting per-fetch ownership of the captured set. -/
theorem shared_capture_leaks_across_fetches :
    ((runShared ⟨[], none, none⟩ leakSchedule).seenA.map
      (fun d => (dictHasKey d "https://a.example.com/video/1.mp4",
                 dictHasKey d "https://b.example.com/video/2.mp4"))) =
      some (false, true) :=
  rfl

/-! ## Claim C10 : capture/analysis marker asymmetry -/

theorem xhrScan_pattern_of_some :
    ∀ {vals : List String} {v : String}, xhrScan vals = some v →
      xhr_video_patterns.any (fun p => strHas v p) = true := by
  intro vals
  induction vals with
  | nil => intro v h; cases h
  | cons url rest ih =>
    intro v h
    unfold xhrScan at h
    by_cases hpat : xhr_video_patterns.any (fun p => strHas url p) = true
    · rw [if_pos hpat] at h
      by_cases hval : is_valid_download_url url = true
      · rw [if_pos hval] at h
        obtain rfl : url = v := by simpa using h
        exact hpat
      · rw [if_neg hval] at h
        exact ih h
    · rw [if_neg hpat] at h
      exact ih h

theorem dictInsert_hasKey (d : List (String × String)) (k v : String) :
    dictHasKey (dictInsert d k v) k = true := by
  unfold dictInsert dictHasKey
  by_cases hd : d.any (fun kv => kv.1 == k) = true
  · rw [if_pos hd]
    obtain ⟨kv, hmem, hkv⟩ := List.any_eq_true.1 hd
    refine List.any_eq_true.2 ⟨(kv.1, v), List.mem_map.2 ⟨kv, hmem, ?_⟩, hkv⟩
    rw [if_pos hkv]
  · rw [if_neg hd]
    refine List.any_eq_true.2 ⟨(k, v), ?_, by simp⟩
    simp

/-- Claim C10: an http(s) response URL of a captured resource kind that
contains the marker `download` but none of the six analysis patterns is
inserted into the captured-response dict by the response listener, yet
the captured-response analysis strategy can never return it, because its
pattern set omits `download`. -/
theorem download_marker_asymmetry (rt u : String)
    (hrt : captured_resource_types.contains rt = true)
    (hhttp : strStarts u "http://" = true ∨ strStarts u "https://" = true)
    (hdl : strHas u "download" = true)
    (hnot : ∀ p ∈ xhr_video_patterns, strHas u p = false) :
    (∀ d, dictHasKey (handle_response d rt u) u = true) ∧
    (∀ d v, analyze_xhr_responses d = some v → v ≠ u) := by
  constructor
  · intro d
    unfold handle_response
    rw [if_pos hrt, if_pos]
    · exact dictInsert_hasKey d u u
    · exact List.any_eq_true.2 ⟨"download", by decide, hdl⟩
  · intro d v hscan hvu
    subst hvu
    obtain ⟨p, hp, hhas⟩ := List.any_eq_true.1 (xhrScan_pattern_of_some hscan)
    rw [hnot p hp] at hhas
    exact Bool.false_ne_true hhas

/-- Witness for C10: the listener captures
`https://example.com/download?id=1` (an http(s) URL carrying only the
`download` marker) into the dict. -/
theorem download_marker_asymmetry_witness :
    dictHasKey
      (handle_response [] "xhr" "https://example.com/download?id=1")
      "https://example.com/download?id=1" = true :=
  (download_marker_asymmetry "xhr" "https://example.com/download?id=1"
    rfl (Or.inr (by decide)) (by decide) (by decide)).1 []

/-! ## Claim C5 : strategy order of the extraction pipeline -/

theorem checkAttr_truthy {e : Elem} {n u : String}
    (h : checkAttr e n = some u) :
    (!u.data.isEmpty && is_valid_download_url u) = true := by
  unfold checkAttr at h
  cases hg : getAttr e n with
  | none =>
    simp only [hg] at h
    exact Option.noConfusion h
  | some v =>
    simp only [hg] at h
    by_cases hc : (!v.data.isEmpty && is_valid_download_url v) = true
    · rw [if_pos hc] at h
      obtain rfl : v = u := by simpa using h
      exact hc
    · rw [if_neg hc] at h
      cases h

theorem popupScan_truthy :
    ∀ {sels : List String} {view : List (String × PElem)} {u : String},
      popupScan view sels = some u →
        (!u.data.isEmpty && is_valid_download_url u) = true := by
  intro sels
  induction sels with
  | nil => intro view u h; cases h
  | cons sel rest ih =>
    intro view u h
    unfold popupScan at h
    cases hl : lookupSelP view sel with
    | none =>
      simp only [hl] at h
      exact ih h
    | some e =>
      simp only [hl] at h
      cases hg : getAttrP e "href" with
      | none =>
        simp only [hg] at h
        exact ih h
      | some href =>
        simp only [hg] at h
        by_cases hc : (!href.data.isEmpty && is_valid_download_url href) = true
        · rw [if_pos hc] at h
          obtain rfl : href = u := by simpa using h
          exact hc
        · rw [if_neg hc] at h
          exact ih h

theorem selScan_truthy :
    ∀ {sels : List String} {page : PageView} {u : String},
      selScan page sels = some u → truthy (some u) = true := by
  intro sels
  induction sels with
  | nil => intro page u h; cases h
  | cons sel rest ih =>
    intro page u h
    unfold selScan at h
    cases hl : lookupSel page.selResult sel with
    | none =>
      simp only [hl] at h
      exact ih h
    | some e =>
      simp only [hl] at h
      cases h1 : checkAttr e "href" with
      | some w =>
        simp only [h1] at h
        obtain rfl : w = u := by simpa using h
        have hc := checkAttr_truthy h1
        rw [Bool.and_eq_true] at hc
        simpa [truthy] using hc.1
      | none =>
        simp only [h1] at h
        cases h2 : checkAttr e "data-download-url" with
        | some w =>
          simp only [h2] at h
          obtain rfl : w = u := by simpa using h
          have hc := checkAttr_truthy h2
          rw [Bool.and_eq_true] at hc
          simpa [truthy] using hc.1
        | none =>
          simp only [h2] at h
          cases h3 : checkAttr e "data-video-url" with
          | some w =>
            simp only [h3] at h
            obtain rfl : w = u := by simpa using h
            have hc := checkAttr_truthy h3
            rw [Bool.and_eq_true] at hc
            simpa [truthy] using hc.1
          | none =>
            simp only [h3] at h
            by_cases hb : strHas sel "button" = true
            · rw [if_pos hb] at h
              cases hp : popupScan e.popup popup_selectors with
              | some w =>
                simp only [hp] at h
                obtain rfl : w = u := by simpa using h
                have hc := popupScan_truthy hp
                rw [Bool.and_eq_true] at hc
                simpa [truthy] using hc.1
              | none =>
                simp only [hp] at h
                exact ih h
            · rw [if_neg hb] at h
              exact ih h

/-- Claim C5: the extraction pipeline is exactly the fixed-order chain
static-selector scan, captured-response analysis, media-element scan,
embedded-frame scan, returning the first truthy result; in particular,
whenever the static-selector scan and the captured-response analysis each
produce a result, the static-selector result is returned. -/
theorem extraction_strategy_order :
    (∀ page xhr, extract_download_url page xhr = pipelineSpec page xhr) ∧
    (∀ page xhr u v, try_find_download_link page = some u →
      analyze_xhr_responses xhr = some v →
      extract_download_url page xhr = some u) := by
  constructor
  · intro page xhr
    rfl
  · intro page xhr u v h1 _h2
    have hu : truthy (some u) = true :=
      selScan_truthy (by simpa [try_find_download_link] using h1)
    simp [extract_download_url, h1, hu]

/-- Witness for C5: on a page whose `a.download-button` anchor carries a
valid href while a captured response also holds a valid URL, the
static-selector result wins. -/
theorem extraction_strategy_order_witness :
    extract_download_url
      ⟨[("a.download-button",
         ⟨[("href", "https://x.example.com/video/a.mp4")], []⟩)], [], []⟩
      [("https://y.example.com/s.m3u8", "https://y.example.com/s.m3u8")] =
      some "https://x.example.com/video/a.mp4" :=
  extraction_strategy_order.2
    ⟨[("a.download-button",
       ⟨[("href", "https://x.example.com/video/a.mp4")], []⟩)], [], []⟩
    [("https://y.example.com/s.m3u8", "https://y.example.com/s.m3u8")]
    "https://x.example.com/video/a.mp4" "https://y.example.com/s.m3u8"
    rfl rfl

/-! ## Claims C2 and C3 : the rate limiter -/

theorem wait_for_request_shape {s : RateLimiter} {now ε : ℚ}
    {out : ℚ × RateLimiter} (h : wait_for_request s now ε = some out) :
    ∃ sleep1 sleep2 : ℚ,
      out = (now + sleep1 + sleep2 + ε,
        { s with request_times :=
            (s.request_times.filter (fun t => decide (now - 60 < t))) ++
              [now + sleep1 + sleep2 + ε] }) ∧
      0 ≤ sleep1 ∧ 0 ≤ sleep2 ∧
      (s.max_requests_per_minute ≤
          (s.request_times.filter (fun t => decide (now - 60 < t))).length →
        ∃ oldest,
          (s.request_times.filter (fun t => decide (now - 60 < t))).min? =
            some oldest ∧ 60 - (now - oldest) ≤ sleep1) ∧
      (∀ latest,
        (s.request_times.filter (fun t => decide (now - 60 < t))).max? =
          some latest →
        latest + s.delay_between_requests ≤ now + sleep1 + sleep2) := by
  simp only [wait_for_request] at h
  set kept := s.request_times.filter (fun t => decide (now - 60 < t)) with hkept
  set sleep2 : ℚ :=
    (match kept.max? with
     | none => 0
     | some latest =>
       if now - latest < s.delay_between_requests then
         s.delay_between_requests - (now - latest)
       else 0) with hsleep2
  have hs2_nonneg : 0 ≤ sleep2 := by
    cases hmax : kept.max? with
    | none =>
      simp only [hsleep2, hmax]
      exact le_refl 0
    | some latest =>
      simp only [hsleep2, hmax]
      by_cases hlt : now - latest < s.delay_between_requests
      · rw [if_pos hlt]
        linarith
      · rw [if_neg hlt]
  have hs2_bound : ∀ latest, kept.max? = some latest → ∀ s1 : ℚ, 0 ≤ s1 →
      latest + s.delay_between_requests ≤ now + s1 + sleep2 := by
    intro latest hmax s1 hs1
    simp only [hsleep2, hmax]
    by_cases hlt : now - latest < s.delay_between_requests
    · rw [if_pos hlt]
      linarith
    · rw [if_neg hlt]
      push_neg at hlt
      linarith
  by_cases hM : s.max_requests_per_minute ≤ kept.length
  · rw [if_pos hM] at h
    cases hmin : kept.min? with
    | none =>
      rw [hmin] at h
      exact Option.noConfusion h
    | some oldest =>
      rw [hmin] at h
      simp only [Option.map_some'] at h
      refine ⟨max (60 - (now - oldest)) 0, sleep2, ?_, le_max_right _ _,
        hs2_nonneg, ?_, ?_⟩
      · exact (Option.some.inj h).symm
      · intro _
        exact ⟨oldest, rfl, le_max_left _ _⟩
      · intro latest hmax
        exact hs2_bound latest hmax _ (le_max_right _ _)
  · rw [if_neg hM] at h
    refine ⟨0, sleep2, ?_, le_refl 0, hs2_nonneg, fun hc => absurd hc hM, ?_⟩
    · exact (Option.some.inj h).symm
    · intro latest hmax
      exact hs2_bound latest hmax _ (le_refl 0)

theorem stepRun_inv {r r' : RLRun} {now ε : ℚ}
    (hinv : RLInv r) (hε : 0 ≤ ε)
    (hnow : ∀ t ∈ r.rl.request_times, t ≤ now)
    (hstep : stepRun r now ε = some r') : RLInv r' := by
  obtain ⟨⟨d, M, ts⟩, comps⟩ := r
  obtain ⟨⟨pre, hpre, hpre60⟩, hsort, hwin, hchain, hemp⟩ := hinv
  simp only at hnow hpre hpre60 hwin hchain hemp
  unfold stepRun at hstep
  cases hw : wait_for_request ⟨d, M, ts⟩ now ε with
  | none =>
    rw [hw] at hstep
    exact Option.noConfusion hstep
  | some out =>
    rw [hw] at hstep
    obtain ⟨s1, s2, hout, hs1, hs2, hcap, hdel⟩ := wait_for_request_shape hw
    subst hout
    simp only [Option.some.injEq] at hstep
    subst hstep
    simp only at hcap hdel
    set kept := ts.filter (fun t => decide (now - 60 < t)) with hkeptdef
    set T := now + s1 + s2 + ε with hTdef
    have hkept_sub : ∀ t ∈ kept, t ∈ ts := fun t ht => (List.mem_filter.1 ht).1
    have hkept_gt : ∀ t ∈ kept, now - 60 < t := fun t ht =>
      of_decide_eq_true (List.mem_filter.1 ht).2
    have hkept_now : ∀ t ∈ kept, t ≤ now := fun t ht => hnow t (hkept_sub t ht)
    have hnow_T : now ≤ T := by
      rw [hTdef]
      linarith
    have hts_sorted : List.Pairwise (· ≤ ·) ts := by
      rw [hpre] at hsort
      exact (List.pairwise_append.1 hsort).2.1
    have hpre_old : ∀ a ∈ pre, a ≤ now - 60 := by
      intro a ha
      obtain ⟨b, hb, hab⟩ := hpre60 a ha
      have := hnow b hb
      linarith
    have hcomps_T : ∀ c ∈ comps, c ≤ T := by
      intro c hc
      rw [hpre] at hc
      rcases List.mem_append.1 hc with h | h
      · have := hpre_old c h
        linarith
      · have := hnow c h
        linarith
    have hsplit : ts = ts.filter (fun t => !decide (now - 60 < t)) ++ kept :=
      sorted_filter_split (now - 60) ts hts_sorted
    set dropped := ts.filter (fun t => !decide (now - 60 < t)) with hdropdef
    have hdrop_old : ∀ a ∈ dropped, a ≤ now - 60 := by
      intro a ha
      have h2 := (List.mem_filter.1 ha).2
      simp only [Bool.not_eq_eq_eq_not, Bool.not_true, decide_eq_false_iff_not] at h2
      linarith [not_lt.1 h2]
    refine ⟨⟨pre ++ dropped, ?_, ?_⟩, ?_, ?_, ?_, ?_⟩
    · show comps ++ [T] = (pre ++ dropped) ++ (kept ++ [T])
      rw [hpre, hsplit]
      simp [List.append_assoc]
    · intro a ha
      refine ⟨T, by simp, ?_⟩
      rcases List.mem_append.1 ha with h | h
      · have := hpre_old a h
        linarith
      · have := hdrop_old a h
        linarith
    · show List.Pairwise (· ≤ ·) (comps ++ [T])
      rw [List.pairwise_append]
      refine ⟨hsort, List.pairwise_singleton _ _, ?_⟩
      intro a ha b hb
      obtain rfl : b = T := List.mem_singleton.1 hb
      exact hcomps_T a ha
    · show ∀ w, countWindow w (comps ++ [T]) ≤ M
      intro w
      have hwinw := hwin w
      unfold countWindow at hwinw ⊢
      rw [List.countP_append, List.countP_cons, List.countP_nil]
      by_cases hTw : (decide (w - 60 < T) && decide (T ≤ w)) = true
      · have hTw' := hTw
        rw [Bool.and_eq_true, decide_eq_true_eq, decide_eq_true_eq] at hTw'
        obtain ⟨hTw1, hTw2⟩ := hTw' 
        have hpre0 : pre.countP (fun t => decide (w - 60 < t) && decide (t ≤ w)) = 0 := by
          rw [List.countP_eq_zero]
          intro a ha
          have := hpre_old a ha
          simp only [Bool.and_eq_true, decide_eq_true_eq, not_and]
          intro hgt
          linarith
        have hdrop0 : dropped.countP (fun t => decide (w - 60 < t) && decide (t ≤ w)) = 0 := by
          rw [List.countP_eq_zero]
          intro a ha
          have := hdrop_old a ha
          simp only [Bool.and_eq_true, decide_eq_true_eq, not_and]
          intro hgt
          linarith
        have hcompseq : comps.countP (fun t => decide (w - 60 < t) && decide (t ≤ w)) =
            kept.countP (fun t => decide (w - 60 < t) && decide (t ≤ w)) := by
          rw [hpre, hsplit, List.countP_append, List.countP_append, hpre0, hdrop0]
          omega
        by_cases hM : M ≤ kept.length
        · obtain ⟨oldest, hmin, hs1b⟩ := hcap hM
          obtain ⟨hold_mem, hold_min⟩ := min?_spec hmin
          have hT_old : oldest + 60 ≤ T := by
            rw [hTdef]
            linarith
          have hpoldest : (decide (w - 60 < oldest) && decide (oldest ≤ w)) = false := by
            have : ¬(w - 60 < oldest) := by linarith
            rw [decide_eq_false this, Bool.false_and]
          have hcount : kept.countP (fun t => decide (w - 60 < t) && decide (t ≤ w)) <
              kept.length := countP_lt_length_of_exists hold_mem hpoldest
          have hlen : kept.length ≤ M := by
            have hwn := hwin now
            unfold countWindow at hwn
            have hpren : pre.countP (fun t => decide (now - 60 < t) && decide (t ≤ now)) = 0 := by
              rw [List.countP_eq_zero]
              intro a ha
              have := hpre_old a ha
              simp only [Bool.and_eq_true, decide_eq_true_eq, not_and]
              intro hgt
              linarith
            have hdropn : dropped.countP (fun t => decide (now - 60 < t) && decide (t ≤ now)) = 0 := by
              rw [List.countP_eq_zero]
              intro a ha
              have := hdrop_old a ha
              simp only [Bool.and_eq_true, decide_eq_true_eq, not_and]
              intro hgt
              linarith
            have hkeptn : kept.countP (fun t => decide (now - 60 < t) && decide (t ≤ now)) =
                kept.length := by
              rw [List.countP_eq_length]
              intro a ha
              rw [Bool.and_eq_true, decide_eq_true_eq, decide_eq_true_eq]
              exact ⟨hkept_gt a ha, hkept_now a ha⟩
            rw [hpre, hsplit, List.countP_append, List.countP_append, hpren, hdropn,
              hkeptn] at hwn
            omega
          rw [hcompseq, if_pos hTw]
          omega
        · push_neg at hM
          have := List.countP_le_length
            (p := fun t => decide (w - 60 < t) && decide (t ≤ w)) (l := kept)
          rw [hcompseq, if_pos hTw]
          omega
      · rw [if_neg hTw]
        omega
    · show List.Chain' (fun a b => a + min d 60 ≤ b) (comps ++ [T])
      rw [List.chain'_append]
      refine ⟨hchain, List.chain'_singleton _, ?_⟩
      intro x hx y hy
      have hyT : T = y := by simpa using hy
      subst hyT
      have hxlast : comps.getLast? = some x := hx
      have hts_ne : ts ≠ [] := by
        intro h0
        rw [hemp h0] at hxlast
        exact Option.noConfusion hxlast
      have hxts : ts.getLast? = some x := by
        rw [hpre, List.getLast?_append] at hxlast
        cases hts_last : ts.getLast? with
        | none =>
          rw [List.getLast?_eq_none_iff] at hts_last
          exact absurd hts_last hts_ne
        | some z =>
          rw [hts_last] at hxlast
          simp only [Option.or_some] at hxlast
          obtain rfl : z = x := Option.some.inj hxlast
          rfl
      obtain ⟨hx_mem, hx_max⟩ := pairwise_le_getLast? hts_sorted hxts
      by_cases hkept_ne : kept = []
      · have hall := List.filter_eq_nil_iff.1 hkept_ne
        have hxold : x ≤ now - 60 := by
          have := hall x hx_mem
          simp only [decide_eq_true_eq] at this
          linarith [not_lt.1 this]
        have hmin60 : min d 60 ≤ 60 := min_le_right _ _
        rw [hTdef]
        linarith
      · cases hmax : kept.max? with
        | none =>
          rw [List.max?_eq_none_iff] at hmax
          exact absurd hmax hkept_ne
        | some latest =>
          obtain ⟨hl_mem, hl_max⟩ := max?_spec hmax
          have hxk : x ∈ kept := by
            by_contra hxk
            have hxf : ¬(now - 60 < x) := by
              intro hlt
              exact hxk (List.mem_filter.2 ⟨hx_mem, decide_eq_true hlt⟩)
            have h1 := hx_max latest (hkept_sub latest hl_mem)
            have h2 := hkept_gt latest hl_mem
            linarith [not_lt.1 hxf]
          have hlx : latest = x :=
            le_antisymm (hx_max latest (hkept_sub latest hl_mem)) (hl_max x hxk)
          have hTb := hdel latest hmax
          have hmind : min d 60 ≤ d := min_le_left _ _
          rw [hTdef, ← hlx]
          linarith
    · intro h0
      exact absurd h0 (by simp)

theorem stepRun_fields {r r' : RLRun} {now ε : ℚ}
    (h : stepRun r now ε = some r') :
    r'.rl.delay_between_requests = r.rl.delay_between_requests ∧
    r'.rl.max_requests_per_minute = r.rl.max_requests_per_minute := by
  unfold stepRun at h
  cases hw : wait_for_request r.rl now ε with
  | none =>
    rw [hw] at h
    exact Option.noConfusion h
  | some out =>
    rw [hw] at h
    obtain ⟨s1, s2, hout, -, -, -, -⟩ := wait_for_request_shape hw
    subst hout
    simp only [Option.some.injEq] at h
    subst h
    exact ⟨rfl, rfl⟩

theorem initRun_inv (d : ℚ) (M : ℕ) : RLInv (initRun d M) := by
  refine ⟨⟨[], rfl, by simp⟩, List.Pairwise.nil, ?_, List.chain'_nil, fun _ => rfl⟩
  intro w
  simp [countWindow, initRun]

theorem runTrace_inv : ∀ (trace : List (ℚ × ℚ)) (r r' : RLRun),
    RLInv r → goodTrace r trace = true → runTrace r trace = some r' →
    RLInv r' ∧ r'.rl.delay_between_requests = r.rl.delay_between_requests ∧
      r'.rl.max_requests_per_minute = r.rl.max_requests_per_minute
  | [], r, r', hinv, _, hrun => by
    simp only [runTrace, Option.some.injEq] at hrun
    subst hrun
    exact ⟨hinv, rfl, rfl⟩
  | (now, ε) :: rest, r, r', hinv, hgood, hrun => by
    simp only [goodTrace, Bool.and_eq_true] at hgood
    obtain ⟨⟨hε, hall⟩, hmatch⟩ := hgood
    simp only [runTrace] at hrun
    cases hstep : stepRun r now ε with
    | none =>
      rw [hstep] at hrun
      exact Option.noConfusion hrun
    | some r2 =>
      simp only [hstep] at hrun hmatch
      have hnow : ∀ t ∈ r.rl.request_times, t ≤ now := fun t ht =>
        of_decide_eq_true (List.all_eq_true.1 hall t ht)
      have hε' : (0 : ℚ) ≤ ε := of_decide_eq_true hε
      have h2 := stepRun_inv hinv hε' hnow hstep
      have hf := stepRun_fields hstep
      obtain ⟨hi, hd, hM⟩ := runTrace_inv rest r2 r' h2 hmatch hrun
      exact ⟨hi, hd.trans hf.1, hM.trans hf.2⟩

/-- Claim C2: over any wellformed sequence of completed
`wait_for_request` calls on a limiter configured with cap `M`, every
trailing 60-second window contains at most `M` recorded request-start
timestamps. -/
theorem rate_limiter_window_cap (d : ℚ) (M : ℕ) (trace : List (ℚ × ℚ))
    (r : RLRun) (w : ℚ)
    (hgood : goodTrace (initRun d M) trace = true)
    (hrun : runTrace (initRun d M) trace = some r) :
    countWindow w r.completions ≤ M := by
  obtain ⟨hinv, -, hM⟩ :=
    runTrace_inv trace (initRun d M) r (initRun_inv d M) hgood hrun
  have h := hinv.2.2.1 w
  rw [hM] at h
  exact h

/-- Witness for C2: a two-call run with cap 1 that exercises the
cap-sleep branch; the window ending at the second completion holds one
timestamp. -/
theorem rate_limiter_window_cap_witness :
    countWindow 60 (⟨⟨0, 1, [0, 60]⟩, [0, 60]⟩ : RLRun).completions ≤ 1 :=
  rate_limiter_window_cap 0 1 [(0, 0), (10, 0)] ⟨⟨0, 1, [0, 60]⟩, [0, 60]⟩ 60
    (by norm_num [goodTrace, stepRun, wait_for_request, initRun])
    (by norm_num
      [goodTrace, stepRun, wait_for_request, initRun, runTrace])

/-- Counterexample for C3 as frozen: with configured minimum delay 100
(greater than the 60-second retention horizon) the wellformed two-call
run at clock readings 0 and 61 completes with consecutive recorded
timestamps 0 and 61, only 61 apart — the first timestamp has been
discarded from the window, so no delay is imposed. -/
theorem min_delay_counterexample :
    goodTrace (initRun 100 10) [(0, 0), (61, 0)] = true ∧
    (runTrace (initRun 100 10) [(0, 0), (61, 0)]).map RLRun.completions =
      some [0, 61] ∧
    ¬ List.Chain' (fun a b => a + (100 : ℚ) ≤ b) [0, 61] := by
  refine ⟨?_, ?_, ?_⟩
  · norm_num [goodTrace, stepRun, wait_for_request, initRun]
  · norm_num [runTrace, stepRun, wait_for_request, initRun]
  · simp [List.chain'_cons]
    norm_num

/-- Claim C3 (amended): over any wellformed sequence of completed
`wait_for_request` calls with configured minimum delay `d`, consecutive
recorded completion timestamps differ by at least `min d 60`: the full
delay is enforced only while the previous timestamp is still within the
60-second retention window, and a pruned predecessor is always at least
60 seconds old. -/
theorem rate_limiter_consecutive_gap (d : ℚ) (M : ℕ) (trace : List (ℚ × ℚ))
    (r : RLRun)
    (hgood : goodTrace (initRun d M) trace = true)
    (hrun : runTrace (initRun d M) trace = some r) :
    List.Chain' (fun a b => a + min d 60 ≤ b) r.completions := by
  obtain ⟨hinv, hd, -⟩ :=
    runTrace_inv trace (initRun d M) r (initRun_inv d M) hgood hrun
  have h := hinv.2.2.2.1
  rw [hd] at h
  exact h

/-- Witness for C3: a two-call run with delay 5 whose second call waits
out both the cap and the delay; the completions 0 and 64 are at least
`min 5 60 = 5` apart. -/
theorem rate_limiter_consecutive_gap_witness :
    List.Chain' (fun a b => a + min (5 : ℚ) 60 ≤ b)
      (⟨⟨5, 1, [0, 64]⟩, [0, 64]⟩ : RLRun).completions :=
  rate_limiter_consecutive_gap 5 1 [(0, 0), (1, 0)] ⟨⟨5, 1, [0, 64]⟩, [0, 64]⟩
    (by norm_num [goodTrace, stepRun, wait_for_request, initRun])
    (by norm_num [runTrace, stepRun, wait_for_request, initRun])

end Harvester
